import Mathlib

/-!
Verification of the FMI-BACKEND ownership-transfer settlement engine and
portfolio analytics, shallowly embedded from the Django source
(`investments/models.py`, `investments/signals.py`, `investments/utils.py`,
`investments/views.py`).

Money values are Python `Decimal`s in the source; all the arithmetic the
claims touch (addition, subtraction, multiplication by the 2.5 % fee rate,
comparison against literals) is exact in `Decimal`, so we model money as `ℚ`.
The one inexact `Decimal` operation, the division computing `transfer_ratio`
(context-rounded to 28 significant digits), is modelled as exact rational
division; it feeds only the seller's cost-basis deduction, which no claim
constrains beyond the full-exit override.

The database tables are modelled as lists of records; `get_or_create`,
`save` and `find` become list operations keyed by the record ids, exactly
mirroring the queries issued by the source.
-/

namespace FmiBackend

/-- `Investment.STATUS_CHOICES` from `investments/models.py`. -/
inductive InvStatus where
  | ACTIVE
  | UNDERPERFORMING
  | EXITED
deriving DecidableEq, Repr

/-- `CapitalActivity.ACTIVITY_TYPE_CHOICES` from `investments/models.py`. -/
inductive ActivityType where
  | INITIAL_INVESTMENT
  | CAPITAL_CALL
  | DISTRIBUTION
  | PARTIAL_EXIT
deriving DecidableEq, Repr

/-- `OwnershipTransfer.STATUS_CHOICES` from `investments/models.py`. -/
inductive TransferStatus where
  | DRAFT
  | PENDING
  | APPROVED
  | COMPLETED
  | CANCELLED
  | REJECTED
deriving DecidableEq, Repr

/-- `OwnershipTransfer.TRANSFER_TYPE_CHOICES` from `investments/models.py`. -/
inductive TransferType where
  | FULL
  | PARTIAL
deriving DecidableEq, Repr

/-- The `Investment` model (`investments/models.py`).  Users, fund names,
sectors and managers are abstracted to `Nat` keys; dates to `ℤ` day numbers.
Fields the settlement engine never reads (fund_size, progress, …) are
omitted. -/
structure Investment where
  id : Nat
  user : Nat
  name : Nat
  status : InvStatus
  sector : Nat
  total_invested : ℚ
  current_value : ℚ
  manager : Nat
  fund_vintage : Option Int
  investment_date : Int
deriving DecidableEq, Repr

/-- The `CapitalActivity` model (`investments/models.py`): an append-only
ledger row tied to one investment (by id). -/
structure CapitalActivity where
  investment : Nat
  activity_type : ActivityType
  amount : ℚ
  date : Int
deriving DecidableEq, Repr

/-- The `OwnershipTransfer` model (`investments/models.py`). -/
structure OwnershipTransfer where
  id : Nat
  investment : Nat
  from_user : Nat
  to_user : Option Nat
  transfer_type : TransferType
  transfer_amount : ℚ
  transfer_fee : ℚ
  net_amount : ℚ
  status : TransferStatus
  is_processed : Bool
  completion_date : Option Int
  estimated_completion_date : Option Int
deriving DecidableEq, Repr

/-- The persisted state the settlement executor touches: the investments
table, the capital-activity table, the transfer being saved, and the next
fresh primary key for investment rows created by `get_or_create`. -/
structure LedgerState where
  investments : List Investment
  activities : List CapitalActivity
  transfer : OwnershipTransfer
  nextId : Nat
deriving DecidableEq, Repr

/-- `Investment.objects.get(pk=...)`: look an investment up by primary key. -/
def findInvestment (invs : List Investment) (i : Nat) : Option Investment :=
  invs.find? (fun inv => inv.id == i)

/-- The ORM `save()` on an existing investment row: replace the row with
this primary key. -/
def saveInvestment (invs : List Investment) (inv : Investment) : List Investment :=
  invs.map (fun j => if j.id == inv.id then inv else j)

/-- The lookup half of
`Investment.objects.get_or_create(user=buyer, name=seller_investment.name, ...)`
in `handle_transfer_completion` (`investments/signals.py`): the filter is by
recipient user and fund name only — the row's status is not consulted. -/
def buyerLookup (invs : List Investment) (buyer : Nat) (name : Nat) : Option Investment :=
  invs.find? (fun inv => inv.user == buyer && inv.name == name)

/-- Seller-side mutation of `handle_transfer_completion`
(`investments/signals.py` lines 74–89): subtract the transfer amount from
`current_value`, subtract the proportional cost basis from `total_invested`,
then apply the full-exit override when the transfer is FULL or the
post-subtraction value dropped below 0.01. -/
def sellerAfter (t : OwnershipTransfer) (seller : Investment) : Investment :=
  let transfer_ratio : ℚ :=
    if seller.current_value > 0 then t.transfer_amount / seller.current_value else 0
  let cost_basis_deduction := seller.total_invested * transfer_ratio
  let newValue := seller.current_value - t.transfer_amount
  let newInvested := seller.total_invested - cost_basis_deduction
  if t.transfer_type = .FULL ∨ newValue < 1/100 then
    { seller with status := .EXITED, current_value := 0, total_invested := 0 }
  else
    { seller with current_value := newValue, total_invested := newInvested }

/-- The body of the `transaction.atomic()` block of
`handle_transfer_completion` (`investments/signals.py` lines 73–135), entered
once all guards have passed.  `today` is `timezone.now().date()` and `now`
is `timezone.now()` (both as day numbers). -/
def settleCore (today now : Int) (s : LedgerState) (t : OwnershipTransfer)
    (buyer : Nat) (seller : Investment) : LedgerState :=
  let seller' := sellerAfter t seller
  let invs1 := saveInvestment s.investments seller'
  let sellerActivity : CapitalActivity :=
    { investment := seller'.id
      activity_type := if t.transfer_type = .PARTIAL then .PARTIAL_EXIT else .DISTRIBUTION
      amount := t.transfer_amount
      date := today }
  match buyerLookup invs1 buyer seller.name with
  | some buyerInv =>
      let buyerInv' := { buyerInv with
        total_invested := buyerInv.total_invested + t.transfer_amount
        current_value := buyerInv.current_value + t.transfer_amount }
      let buyerActivity : CapitalActivity :=
        { investment := buyerInv'.id, activity_type := .INITIAL_INVESTMENT
          amount := -t.transfer_amount, date := today }
      { investments := saveInvestment invs1 buyerInv'
        activities := s.activities ++ [sellerActivity, buyerActivity]
        transfer := { t with
          is_processed := true
          completion_date := match t.completion_date with
            | some d => some d
            | none => some now }
        nextId := s.nextId }
  | none =>
      let created : Investment :=
        { id := s.nextId, user := buyer, name := seller.name
          status := .ACTIVE, sector := seller.sector
          total_invested := 0, current_value := 0
          manager := seller.manager, fund_vintage := seller.fund_vintage
          investment_date := today }
      let buyerInv' := { created with
        total_invested := created.total_invested + t.transfer_amount
        current_value := created.current_value + t.transfer_amount }
      let buyerActivity : CapitalActivity :=
        { investment := buyerInv'.id, activity_type := .INITIAL_INVESTMENT
          amount := -t.transfer_amount, date := today }
      { investments := invs1 ++ [buyerInv']
        activities := s.activities ++ [sellerActivity, buyerActivity]
        transfer := { t with
          is_processed := true
          completion_date := match t.completion_date with
            | some d => some d
            | none => some now }
        nextId := s.nextId + 1 }

/-- `handle_transfer_completion` (`investments/signals.py`): the `post_save`
settlement executor.  Early returns: transfer not COMPLETED or already
processed; no registered recipient; transfer amount exceeding the seller's
current value (logged, no exception).  The `instance.save()` the handler
itself performs re-fires the signal, which then hits the `is_processed`
early return, so a single application models one trigger.  The
`Investment.objects.get(pk=...)` of the transfer's FK is total in the source
(FK integrity); a dangling id is modelled as a no-op. -/
def handle_transfer_completion (today now : Int) (s : LedgerState) : LedgerState :=
  let t := s.transfer
  if t.status ≠ .COMPLETED ∨ t.is_processed then s
  else
    match t.to_user with
    | none => s
    | some buyer =>
        match findInvestment s.investments t.investment with
        | none => s
        | some seller =>
            if seller.current_value < t.transfer_amount then s
            else settleCore today now s t buyer seller

/-- `OwnershipTransfer.save` (`investments/models.py` lines 342–354): on
every persist the fee is recomputed as `transfer_amount * Decimal('0.025')`
(exact in `Decimal`, no rounding in the source), the net amount as
`transfer_amount - transfer_fee`, and the estimated completion date is set
to now + 10 days when absent on a PENDING transfer. -/
def OwnershipTransfer.save (now : Int) (t : OwnershipTransfer) : OwnershipTransfer :=
  let transfer_fee := t.transfer_amount * (25/1000)
  let net_amount := t.transfer_amount - transfer_fee
  let est := if t.estimated_completion_date = none ∧ t.status = .PENDING
    then some (now + 10) else t.estimated_completion_date
  { t with transfer_fee := transfer_fee, net_amount := net_amount
           estimated_completion_date := est }

/-- The `complete` action of `OwnershipTransferViewSet`
(`investments/views.py` lines 429–453): only APPROVED transfers can be
completed; otherwise an HTTP 400 state error is returned and nothing is
saved.  On success the status is set to COMPLETED and the transfer is saved
(which recomputes fee/net and, via the `post_save` signal modelled by
`handle_transfer_completion`, triggers settlement). -/
def complete (now : Int) (t : OwnershipTransfer) : Except String OwnershipTransfer :=
  if t.status ≠ .APPROVED then
    .error "Only approved transfers can be completed."
  else
    .ok (OwnershipTransfer.save now { t with status := .COMPLETED })

/-- Round a rational to the nearest integer, ties to even — the rounding of
Python's built-in `round`. -/
def halfEvenInt (q : ℚ) : ℤ :=
  let f := ⌊q⌋
  let r := q - f
  if r < 1/2 then f
  else if r > 1/2 then f + 1
  else if f % 2 = 0 then f else f + 1

/-- Python's `round(x, 2)` (banker's rounding at two decimal places),
in exact rational arithmetic. -/
def roundHalfEven2 (q : ℚ) : ℚ :=
  (halfEvenInt (q * 100) : ℚ) / 100

/-- `xirr` (`investments/utils.py` lines 63–94).  Dates are day numbers.
The call `scipy.optimize.newton(lambda r: xnpv(r, days, cash_flows), guess,
maxiter=100)` together with the bare `except: return None` is a
floating-point root-finder external to this repository; it is abstracted as
the parameter `newton`, taking the guess (the source seeds 0.1), the day
offsets and the cash flows, and returning `none` exactly when the scipy
call would raise (non-convergence or any other exception).  Everything
around that call — the length guard, the minimum-of-two-points guard, the
day-offset computation from the earliest date — is translated directly. -/
def xirr (newton : ℚ → List ℤ → List ℚ → Option ℚ)
    (dates : List ℤ) (cash_flows : List ℚ) : Option ℚ :=
  if dates.length ≠ cash_flows.length then none
  else if dates.length < 2 then none
  else
    let first_date := (dates.min?).getD 0
    let days := dates.map (fun d => d - first_date)
    newton (1/10) days cash_flows

/-- The per-activity cash flow of `calculate_investment_irr`
(`investments/utils.py` lines 38–44): outflow activity types are coerced to
minus the absolute stored amount, inflow types to plus the absolute stored
amount — the stored sign is discarded. -/
def activityFlow (a : CapitalActivity) : ℚ :=
  if a.activity_type = .INITIAL_INVESTMENT ∨ a.activity_type = .CAPITAL_CALL then
    -|a.amount|
  else
    |a.amount|

/-- `calculate_investment_irr` (`investments/utils.py` lines 17–60).
`activities` is the investment's capital-activity ledger in date order (the
`order_by('date')` query result); `current_value` the investment's mark and
`today` the valuation date appended as the final flow.  The float
`round(irr * 100, 2)` is modelled in exact rational arithmetic by
`roundHalfEven2`; the `try/except` returning `Decimal('0.00')` collapses to
the `none` branch since the embedded body is total. -/
def calculate_investment_irr (newton : ℚ → List ℤ → List ℚ → Option ℚ)
    (today : ℤ) (current_value : ℚ) (activities : List CapitalActivity) : ℚ :=
  if activities.isEmpty then 0
  else
    let cash_flows := activities.map activityFlow ++ [current_value]
    let dates := activities.map (fun a => a.date) ++ [today]
    match xirr newton dates cash_flows with
    | some irr => roundHalfEven2 (irr * 100)
    | none => 0

/-- The metrics dict returned by `calculate_portfolio_metrics`. -/
structure PortfolioMetrics where
  total_value : ℚ
  total_invested : ℚ
  unrealized_gains : ℚ
  unrealized_gains_percentage : ℚ
  average_irr : ℚ
  num_investments : Nat
deriving DecidableEq, Repr

/-- `calculate_portfolio_metrics` (`investments/utils.py` lines 97–149).
`irrOf` abstracts `investment.calculate_irr()` (whose numeric core is the
scipy solver); `invs` is the `Investment` table.  The queryset filters by
user and by status in {ACTIVE, UNDERPERFORMING}.  `np.average(values,
weights)` raises `ZeroDivisionError` when the weights sum to zero and
nothing in the source catches it; that is the `Except.error` branch. -/
def calculate_portfolio_metrics (irrOf : Investment → ℚ) (user : Nat)
    (invs : List Investment) : Except String PortfolioMetrics :=
  let investments := invs.filter (fun i =>
    i.user == user && (i.status == .ACTIVE || i.status == .UNDERPERFORMING))
  if investments.isEmpty then
    .ok { total_value := 0, total_invested := 0, unrealized_gains := 0
          unrealized_gains_percentage := 0, average_irr := 0
          num_investments := 0 }
  else
    let total_value := (investments.map (fun i => i.current_value)).sum
    let total_invested := (investments.map (fun i => i.total_invested)).sum
    let unrealized_gains := total_value - total_invested
    let unrealized_gains_percentage :=
      if total_invested > 0 then unrealized_gains / total_invested * 100 else 0
    let weighted := investments.filterMap (fun i =>
      let irr := irrOf i
      if irr ≠ 0 then some (irr, i.total_invested) else none)
    if weighted.isEmpty then
      .ok { total_value := total_value, total_invested := total_invested
            unrealized_gains := unrealized_gains
            unrealized_gains_percentage := unrealized_gains_percentage
            average_irr := 0, num_investments := investments.length }
    else
      let weightSum := (weighted.map (fun p => p.2)).sum
      if weightSum = 0 then
        .error "ZeroDivisionError: np.average with zero total weight"
      else
        .ok { total_value := total_value, total_invested := total_invested
              unrealized_gains := unrealized_gains
              unrealized_gains_percentage := unrealized_gains_percentage
              average_irr :=
                roundHalfEven2 ((weighted.map (fun p => p.1 * p.2)).sum / weightSum)
              num_investments := investments.length }

/-! ### Concrete states used to exercise the theorems -/

/-- The seller position of the spec's worked example: current value 50 000,
total invested 50 000, ACTIVE. -/
def exSeller : Investment :=
  { id := 1, user := 10, name := 5, status := .ACTIVE, sector := 2
    total_invested := 50000, current_value := 50000, manager := 0
    fund_vintage := some 2020, investment_date := 0 }

/-- The spec's worked example: a COMPLETED, unprocessed PARTIAL transfer of
10 000 from user 10 to registered user 20, who holds no investment yet. -/
def exState : LedgerState :=
  { investments := [exSeller]
    activities := []
    transfer :=
      { id := 3, investment := 1, from_user := 10, to_user := some 20
        transfer_type := .PARTIAL, transfer_amount := 10000
        transfer_fee := 250, net_amount := 9750, status := .COMPLETED
        is_processed := false, completion_date := none
        estimated_completion_date := none }
    nextId := 2 }

/-- A seller position worth 10 000 used by the over-amount scenarios. -/
def smallSeller : Investment :=
  { id := 1, user := 10, name := 5, status := .ACTIVE, sector := 0
    total_invested := 10000, current_value := 10000, manager := 0
    fund_vintage := none, investment_date := 0 }

/-- The spec's over-amount example: a COMPLETED, unprocessed transfer of
15 000 against a seller position worth only 10 000. -/
def overAmountState : LedgerState :=
  { investments := [smallSeller]
    activities := []
    transfer :=
      { id := 4, investment := 1, from_user := 10, to_user := some 20
        transfer_type := .PARTIAL, transfer_amount := 15000
        transfer_fee := 375, net_amount := 14625, status := .COMPLETED
        is_processed := false, completion_date := none
        estimated_completion_date := none }
    nextId := 2 }

/-- A COMPLETED, unprocessed FULL transfer of 5 000 against a seller
position worth 10 000 — the full-exit override zeroes the seller even
though only half the value moves. -/
def fullBelowValueState : LedgerState :=
  { investments := [smallSeller]
    activities := []
    transfer :=
      { id := 6, investment := 1, from_user := 10, to_user := some 20
        transfer_type := .FULL, transfer_amount := 5000
        transfer_fee := 125, net_amount := 4875, status := .COMPLETED
        is_processed := false, completion_date := none
        estimated_completion_date := none }
    nextId := 2 }

/-- An EXITED investment of user 20 with the same fund name as
`smallSeller`, with zero balances. -/
def exitedBuyerInv : Investment :=
  { id := 2, user := 20, name := 5, status := .EXITED, sector := 0
    total_invested := 0, current_value := 0, manager := 0
    fund_vintage := none, investment_date := 0 }

/-- A COMPLETED, unprocessed PARTIAL transfer of 1 000 to user 20, who
already holds an EXITED investment with the seller's fund name. -/
def exitedBuyerState : LedgerState :=
  { investments := [smallSeller, exitedBuyerInv]
    activities := []
    transfer :=
      { id := 8, investment := 1, from_user := 10, to_user := some 20
        transfer_type := .PARTIAL, transfer_amount := 1000
        transfer_fee := 25, net_amount := 975, status := .COMPLETED
        is_processed := false, completion_date := none
        estimated_completion_date := none }
    nextId := 3 }

/-- A draft transfer of amount 1.00 whose exact 2.5 % fee, 0.025, is not
representable at two decimal places. -/
def unitAmountTransfer : OwnershipTransfer :=
  { id := 9, investment := 1, from_user := 10, to_user := none
    transfer_type := .FULL, transfer_amount := 1, transfer_fee := 0
    net_amount := 0, status := .DRAFT, is_processed := false
    completion_date := none, estimated_completion_date := none }

/-- A PENDING transfer, used to exercise the `complete` state guard. -/
def pendingTransfer : OwnershipTransfer :=
  { id := 11, investment := 1, from_user := 10, to_user := some 20
    transfer_type := .PARTIAL, transfer_amount := 100, transfer_fee := 2.5
    net_amount := 97.5, status := .PENDING, is_processed := false
    completion_date := none, estimated_completion_date := none }

/-- An APPROVED transfer, used to exercise the `complete` state guard. -/
def approvedTransfer : OwnershipTransfer :=
  { pendingTransfer with id := 12, status := .APPROVED }

/-- An investment of user 7 already EXITED — user 7's portfolio has no
ACTIVE or UNDERPERFORMING position. -/
def exitedOnlyInv : Investment :=
  { id := 4, user := 7, name := 9, status := .EXITED, sector := 1
    total_invested := 0, current_value := 0, manager := 0
    fund_vintage := none, investment_date := 0 }

/-- A stored-sign-positive INITIAL_INVESTMENT activity. -/
def posInitialActivity : CapitalActivity :=
  { investment := 1, activity_type := .INITIAL_INVESTMENT, amount := 5, date := 0 }

/-- The same activity with the stored sign flipped. -/
def negInitialActivity : CapitalActivity :=
  { investment := 1, activity_type := .INITIAL_INVESTMENT, amount := -5, date := 0 }

/-! ### List-level lemmas about the table operations -/

theorem findInvestment_mem {invs : List Investment} {i : Nat} {inv : Investment}
    (h : findInvestment invs i = some inv) : inv ∈ invs ∧ inv.id = i := by
  refine ⟨List.mem_of_find?_eq_some h, ?_⟩
  simpa using List.find?_some h

theorem id_inj {invs : List Investment}
    (hnd : (invs.map (fun j => j.id)).Nodup)
    {j k : Investment} (hj : j ∈ invs) (hk : k ∈ invs) (hid : j.id = k.id) :
    j = k :=
  List.inj_on_of_nodup_map hnd hj hk hid

theorem saveInvestment_map_id (invs : List Investment) (inv : Investment) :
    (saveInvestment invs inv).map (fun j => j.id) = invs.map (fun j => j.id) := by
  induction invs with
  | nil => rfl
  | cons j tl ih =>
    simp only [saveInvestment, List.map_cons] at ih ⊢
    rw [ih]
    by_cases hj : j.id = inv.id
    · simp [hj]
    · simp [hj]

theorem mem_saveInvestment_of_ne {invs : List Investment} {inv j : Investment}
    (hj : j ∈ invs) (hne : j.id ≠ inv.id) : j ∈ saveInvestment invs inv := by
  simp only [saveInvestment]
  refine List.mem_map.2 ⟨j, hj, ?_⟩
  simp [hne]

theorem findInvestment_save_self {invs : List Investment} (inv : Investment)
    (h : ∃ j ∈ invs, j.id = inv.id) :
    findInvestment (saveInvestment invs inv) inv.id = some inv := by
  induction invs with
  | nil => simp at h
  | cons j tl ih =>
    rcases h with ⟨k, hk, hkid⟩
    by_cases hj : j.id = inv.id
    · simp [saveInvestment, findInvestment, hj]
    · rcases List.mem_cons.1 hk with rfl | hk'
      · exact absurd hkid hj
      · have := ih ⟨k, hk', hkid⟩
        simpa [saveInvestment, findInvestment, hj] using this

theorem findInvestment_save_other {invs : List Investment} (inv : Investment)
    {i : Nat} (h : i ≠ inv.id) :
    findInvestment (saveInvestment invs inv) i = findInvestment invs i := by
  induction invs with
  | nil => rfl
  | cons j tl ih =>
    simp only [saveInvestment, List.map_cons, findInvestment] at ih ⊢
    by_cases hj : j.id = inv.id
    · have hhead : (if (j.id == inv.id) = true then inv else j) = inv := by
        simp [hj]
      have h1 : (inv.id == i) = false := by
        simp only [beq_eq_false_iff_ne]
        exact fun hh => h hh.symm
      have h2 : (j.id == i) = false := by
        simp only [beq_eq_false_iff_ne]
        intro hh
        exact h (by rw [← hh, hj])
      rw [hhead]
      simp only [List.find?_cons, h1, h2]
      exact ih
    · have hhead : (if (j.id == inv.id) = true then inv else j) = j := by
        simp [hj]
      rw [hhead]
      by_cases hji : (j.id == i) = true
      · simp only [List.find?_cons, hji]
      · have hji' : (j.id == i) = false := by
          simpa using hji
        simp only [List.find?_cons, hji']
        exact ih

theorem findInvestment_append (invs l2 : List Investment) (i : Nat) :
    findInvestment (invs ++ l2) i =
      (findInvestment invs i).or (findInvestment l2 i) := by
  simp [findInvestment]

theorem findInvestment_eq_none {invs : List Investment} {i : Nat}
    (h : ∀ j ∈ invs, j.id ≠ i) : findInvestment invs i = none := by
  simp only [findInvestment, List.find?_eq_none]
  intro j hj
  simpa using h j hj

theorem buyerLookup_mem {invs : List Investment} {b name : Nat} {inv : Investment}
    (h : buyerLookup invs b name = some inv) :
    inv ∈ invs ∧ inv.user = b ∧ inv.name = name := by
  refine ⟨List.mem_of_find?_eq_some h, ?_⟩
  simpa using List.find?_some h

theorem buyerLookup_save {invs : List Investment} {inv : Investment} {b name : Nat}
    (hinv : ¬(inv.user = b ∧ inv.name = name))
    (horig : ∀ j ∈ invs, j.id = inv.id → ¬(j.user = b ∧ j.name = name)) :
    buyerLookup (saveInvestment invs inv) b name = buyerLookup invs b name := by
  induction invs with
  | nil => rfl
  | cons j tl ih =>
    have horig' : ∀ k ∈ tl, k.id = inv.id → ¬(k.user = b ∧ k.name = name) :=
      fun k hk => horig k (List.mem_cons_of_mem _ hk)
    have hinvb : ¬ (inv.user == b && inv.name == name) = true := by
      simpa using hinv
    by_cases hj : j.id = inv.id
    · have hjb : ¬ (j.user == b && j.name == name) = true := by
        simpa using horig j (List.mem_cons_self _ _) hj
      simpa [buyerLookup, saveInvestment, hj, hinvb, hjb] using ih horig'
    · by_cases hjb : (j.user == b && j.name == name) = true
      · simp [buyerLookup, saveInvestment, hj, hjb]
      · simpa [buyerLookup, saveInvestment, hj, hjb] using ih horig'

/-! ### Settlement executor lemmas -/

theorem sellerAfter_id (t : OwnershipTransfer) (seller : Investment) :
    (sellerAfter t seller).id = seller.id := by
  simp only [sellerAfter]
  split <;> rfl

theorem sellerAfter_user (t : OwnershipTransfer) (seller : Investment) :
    (sellerAfter t seller).user = seller.user := by
  simp only [sellerAfter]
  split <;> rfl

theorem sellerAfter_name (t : OwnershipTransfer) (seller : Investment) :
    (sellerAfter t seller).name = seller.name := by
  simp only [sellerAfter]
  split <;> rfl

theorem handle_of_processed (d n : Int) (s : LedgerState)
    (hp : s.transfer.is_processed = true) :
    handle_transfer_completion d n s = s := by
  simp [handle_transfer_completion, hp]

theorem handle_of_not_completed (d n : Int) (s : LedgerState)
    (hst : s.transfer.status ≠ .COMPLETED) :
    handle_transfer_completion d n s = s := by
  simp [handle_transfer_completion, hst]

theorem handle_of_no_buyer (d n : Int) (s : LedgerState)
    (hu : s.transfer.to_user = none) :
    handle_transfer_completion d n s = s := by
  simp [handle_transfer_completion, hu]

theorem handle_of_no_seller (d n : Int) (s : LedgerState)
    (hf : findInvestment s.investments s.transfer.investment = none) :
    handle_transfer_completion d n s = s := by
  cases hu : s.transfer.to_user with
  | none => exact handle_of_no_buyer d n s hu
  | some buyer => simp [handle_transfer_completion, hu, hf]

theorem handle_of_over_amount (d n : Int) (s : LedgerState) {seller : Investment}
    (hf : findInvestment s.investments s.transfer.investment = some seller)
    (hcv : seller.current_value < s.transfer.transfer_amount) :
    handle_transfer_completion d n s = s := by
  cases hu : s.transfer.to_user with
  | none => exact handle_of_no_buyer d n s hu
  | some buyer => simp [handle_transfer_completion, hu, hf, hcv]

theorem settleCore_is_processed (d n : Int) (s : LedgerState)
    (t : OwnershipTransfer) (buyer : Nat) (seller : Investment) :
    (settleCore d n s t buyer seller).transfer.is_processed = true := by
  simp only [settleCore]
  generalize buyerLookup (saveInvestment s.investments (sellerAfter t seller)) buyer seller.name = r
  cases r <;> rfl

theorem handle_eq_settleCore (d n : Int) (s : LedgerState) {buyer : Nat}
    {seller : Investment}
    (h1 : s.transfer.status = .COMPLETED) (h2 : s.transfer.is_processed = false)
    (h3 : s.transfer.to_user = some buyer)
    (h4 : findInvestment s.investments s.transfer.investment = some seller)
    (h5 : ¬ seller.current_value < s.transfer.transfer_amount) :
    handle_transfer_completion d n s = settleCore d n s s.transfer buyer seller := by
  simp [handle_transfer_completion, h1, h2, h3, h4, h5]

theorem handle_handle (d1 n1 d2 n2 : Int) (s : LedgerState) :
    handle_transfer_completion d2 n2 (handle_transfer_completion d1 n1 s) =
      handle_transfer_completion d1 n1 s := by
  by_cases hp : s.transfer.is_processed = true
  · rw [handle_of_processed d1 n1 s hp, handle_of_processed d2 n2 s hp]
  · have hp' : s.transfer.is_processed = false := by
      simpa using hp
    by_cases hst : s.transfer.status = .COMPLETED
    · cases hu : s.transfer.to_user with
      | none =>
          rw [handle_of_no_buyer d1 n1 s hu, handle_of_no_buyer d2 n2 s hu]
      | some buyer =>
          cases hf : findInvestment s.investments s.transfer.investment with
          | none =>
              rw [handle_of_no_seller d1 n1 s hf, handle_of_no_seller d2 n2 s hf]
          | some seller =>
              by_cases hcv : seller.current_value < s.transfer.transfer_amount
              · rw [handle_of_over_amount d1 n1 s hf hcv,
                  handle_of_over_amount d2 n2 s hf hcv]
              · rw [handle_eq_settleCore d1 n1 s hst hp' hu hf hcv]
                exact handle_of_processed d2 n2 _
                  (settleCore_is_processed d1 n1 s s.transfer buyer seller)
    · rw [handle_of_not_completed d1 n1 s hst, handle_of_not_completed d2 n2 s hst]

theorem foldl_handle_of_processed (runs : List (Int × Int)) (s : LedgerState)
    (hp : s.transfer.is_processed = true) :
    runs.foldl (fun st p => handle_transfer_completion p.1 p.2 st) s = s := by
  induction runs with
  | nil => rfl
  | cons hd tl ih =>
      simp only [List.foldl_cons]
      rw [handle_of_processed hd.1 hd.2 s hp]
      exact ih

theorem saveInvestment_id_lt {invs : List Investment} {inv : Investment} {N : Nat}
    (hfresh : ∀ j ∈ invs, j.id < N) :
    ∀ j ∈ saveInvestment invs inv, j.id < N := by
  intro j hj
  have hmem : j.id ∈ (saveInvestment invs inv).map (fun j => j.id) :=
    List.mem_map_of_mem _ hj
  rw [saveInvestment_map_id] at hmem
  obtain ⟨k, hk, hkid⟩ := List.mem_map.1 hmem
  rw [← hkid]
  exact hfresh k hk

theorem buyerLookup_after_sellerSave (s : LedgerState) (t : OwnershipTransfer)
    (buyer : Nat) (seller : Investment)
    (hbuyer : buyer ≠ seller.user)
    (hnd : (s.investments.map (fun j => j.id)).Nodup)
    (hsel : seller ∈ s.investments) :
    buyerLookup (saveInvestment s.investments (sellerAfter t seller)) buyer seller.name
      = buyerLookup s.investments buyer seller.name := by
  apply buyerLookup_save
  · rw [sellerAfter_user]
    exact fun hc => hbuyer hc.1.symm
  · intro j hj hid
    have hjs : j = seller := id_inj hnd hj hsel (by rw [hid, sellerAfter_id])
    subst hjs
    exact fun hc => hbuyer hc.1.symm

theorem settleCore_activities (d n : Int) (s : LedgerState) (t : OwnershipTransfer)
    (buyer : Nat) (seller : Investment) :
    ∃ bid, (settleCore d n s t buyer seller).activities =
      s.activities ++
        [{ investment := seller.id
           activity_type :=
             if t.transfer_type = .PARTIAL then .PARTIAL_EXIT else .DISTRIBUTION
           amount := t.transfer_amount, date := d },
         { investment := bid, activity_type := .INITIAL_INVESTMENT
           amount := -t.transfer_amount, date := d }] := by
  simp only [settleCore]
  generalize buyerLookup (saveInvestment s.investments (sellerAfter t seller)) buyer seller.name = r
  cases r with
  | none => exact ⟨s.nextId, by simp [sellerAfter_id]⟩
  | some b0 => exact ⟨b0.id, by simp [sellerAfter_id]⟩

theorem settleCore_invests (d n : Int) (s : LedgerState) (t : OwnershipTransfer)
    (buyer : Nat) (seller : Investment)
    (hbuyer : buyer ≠ seller.user)
    (hnd : (s.investments.map (fun j => j.id)).Nodup)
    (hfresh : ∀ j ∈ s.investments, j.id < s.nextId)
    (hsel : seller ∈ s.investments) :
    findInvestment (settleCore d n s t buyer seller).investments seller.id
        = some (sellerAfter t seller) ∧
    (match buyerLookup s.investments buyer seller.name with
     | some b0 =>
         findInvestment (settleCore d n s t buyer seller).investments b0.id =
           some { b0 with total_invested := b0.total_invested + t.transfer_amount
                          current_value := b0.current_value + t.transfer_amount }
     | none =>
         findInvestment (settleCore d n s t buyer seller).investments s.nextId =
           some { id := s.nextId, user := buyer, name := seller.name
                  status := .ACTIVE, sector := seller.sector
                  total_invested := 0 + t.transfer_amount
                  current_value := 0 + t.transfer_amount
                  manager := seller.manager, fund_vintage := seller.fund_vintage
                  investment_date := d }) := by
  have hbridge := buyerLookup_after_sellerSave s t buyer seller hbuyer hnd hsel
  have hfindSeller :
      findInvestment (saveInvestment s.investments (sellerAfter t seller)) seller.id
        = some (sellerAfter t seller) := by
    have h := @findInvestment_save_self s.investments (sellerAfter t seller)
      ⟨seller, hsel, (sellerAfter_id t seller).symm⟩
    rw [sellerAfter_id] at h
    exact h
  simp only [settleCore]
  rw [hbridge]
  cases hb : buyerLookup s.investments buyer seller.name with
  | some b0 =>
      obtain ⟨hb0mem, hb0user, hb0name⟩ := buyerLookup_mem hb
      have hb0ne : b0.id ≠ seller.id := by
        intro hide
        have hbs : b0 = seller := id_inj hnd hb0mem hsel hide
        rw [hbs] at hb0user
        exact hbuyer hb0user.symm
      constructor
      · dsimp only
        rw [findInvestment_save_other
          { b0 with total_invested := b0.total_invested + t.transfer_amount
                    current_value := b0.current_value + t.transfer_amount }
          (fun hh => hb0ne hh.symm)]
        exact hfindSeller
      · dsimp only
        have hb0mem1 : b0 ∈ saveInvestment s.investments (sellerAfter t seller) :=
          mem_saveInvestment_of_ne hb0mem (by rw [sellerAfter_id]; exact hb0ne)
        exact findInvestment_save_self _ ⟨b0, hb0mem1, rfl⟩
  | none =>
      constructor
      · dsimp only
        rw [findInvestment_append, hfindSeller]
        rfl
      · dsimp only
        rw [findInvestment_append]
        have hnone : findInvestment
            (saveInvestment s.investments (sellerAfter t seller)) s.nextId = none :=
          findInvestment_eq_none
            (fun j hj => Nat.ne_of_lt (saveInvestment_id_lt hfresh j hj))
        rw [hnone]
        simp [findInvestment]

/-! ### Claim theorems -/

/-- C4: for every COMPLETED, not-yet-processed transfer whose amount exceeds
the seller investment's current value, the settlement handler performs no
mutation at all — the state is returned unchanged, so the transfer remains
COMPLETED with `is_processed = false`, the activity ledger and the
investments table are untouched, and no error propagates (the handler is a
total function). -/
theorem over_amount_settlement_no_op (d n : Int) (s : LedgerState)
    (seller : Investment)
    (h1 : s.transfer.status = .COMPLETED)
    (h2 : s.transfer.is_processed = false)
    (h4 : findInvestment s.investments s.transfer.investment = some seller)
    (hover : seller.current_value < s.transfer.transfer_amount) :
    handle_transfer_completion d n s = s ∧
    (handle_transfer_completion d n s).transfer.status = .COMPLETED ∧
    (handle_transfer_completion d n s).transfer.is_processed = false ∧
    (handle_transfer_completion d n s).activities = s.activities ∧
    (handle_transfer_completion d n s).investments = s.investments := by
  have h := handle_of_over_amount d n s h4 hover
  rw [h]
  exact ⟨rfl, h1, h2, rfl, rfl⟩

/-- C7: the `complete` view action succeeds, setting status COMPLETED, if
and only if the transfer is currently APPROVED; on any other status it
returns the state error and produces no updated transfer, so no transition
skips a state (in particular PENDING never reaches COMPLETED directly). -/
theorem complete_guard (now : Int) (t : OwnershipTransfer) :
    ((∃ t1, complete now t = .ok t1 ∧ t1.status = .COMPLETED) ↔
      t.status = .APPROVED) ∧
    (t.status ≠ .APPROVED →
      complete now t = .error "Only approved transfers can be completed.") := by
  constructor
  · constructor
    · rintro ⟨t1, hok, -⟩
      by_contra hst
      simp [complete, hst] at hok
    · intro hst
      exact ⟨OwnershipTransfer.save now { t with status := .COMPLETED },
        by simp [complete, hst], rfl⟩
  · intro hst
    simp [complete, hst]

/-- C5 (amended): on every save, `transfer_fee` is recomputed as exactly
`transfer_amount × 0.025` — with no rounding — and `net_amount` as
`transfer_amount − transfer_fee`, regardless of the fee/net values present
on the instance before the save. -/
theorem save_fee_net_recompute (now : Int) (t : OwnershipTransfer) :
    (OwnershipTransfer.save now t).transfer_fee = t.transfer_amount * (25/1000) ∧
    (OwnershipTransfer.save now t).net_amount
      = t.transfer_amount - (OwnershipTransfer.save now t).transfer_fee ∧
    (∀ fee0 net0 : ℚ,
      OwnershipTransfer.save now { t with transfer_fee := fee0, net_amount := net0 }
        = OwnershipTransfer.save now t) :=
  ⟨rfl, rfl, fun _ _ => rfl⟩

/-- C8: `xirr` is total — every call returns `none` or a rate, and never
raises; it returns `none` when the date and cash-flow lists have different
lengths or fewer than 2 points, and otherwise returns exactly what the
Newton-Raphson solver (seeded at 0.10) returns on the day offsets from the
earliest date — so solver failure (`none`) propagates as `none`. -/
theorem xirr_sentinel (newton : ℚ → List ℤ → List ℚ → Option ℚ)
    (dates : List ℤ) (cash_flows : List ℚ) :
    (xirr newton dates cash_flows = none ∨
      ∃ r, xirr newton dates cash_flows = some r) ∧
    (dates.length ≠ cash_flows.length → xirr newton dates cash_flows = none) ∧
    (dates.length < 2 → xirr newton dates cash_flows = none) ∧
    (dates.length = cash_flows.length → 2 ≤ dates.length →
      xirr newton dates cash_flows
        = newton (1/10) (dates.map (fun d => d - (dates.min?.getD 0))) cash_flows) := by
  refine ⟨?_, ?_, ?_, ?_⟩
  · cases h : xirr newton dates cash_flows with
    | none => exact Or.inl rfl
    | some r => exact Or.inr ⟨r, rfl⟩
  · intro h
    simp [xirr, h]
  · intro h
    simp [xirr, h]
  · intro h1 h2
    have h3 : ¬ dates.length < 2 := by omega
    have h4 : ¬ cash_flows.length < 2 := by omega
    simp [xirr, h1, h3, h4]

/-- C9: for a user with no investment in status ACTIVE or UNDERPERFORMING,
`calculate_portfolio_metrics` returns the all-zero metrics dict (with
`num_investments = 0`) and raises no error. -/
theorem portfolio_metrics_empty (irrOf : Investment → ℚ) (user : Nat)
    (invs : List Investment)
    (h : ∀ i ∈ invs, i.user = user →
      i.status ≠ .ACTIVE ∧ i.status ≠ .UNDERPERFORMING) :
    calculate_portfolio_metrics irrOf user invs =
      .ok { total_value := 0, total_invested := 0, unrealized_gains := 0
            unrealized_gains_percentage := 0, average_irr := 0
            num_investments := 0 } := by
  have hfil : invs.filter (fun i =>
      i.user == user && (i.status == .ACTIVE || i.status == .UNDERPERFORMING)) = [] := by
    rw [List.filter_eq_nil_iff]
    intro a ha
    by_cases hu : a.user = user
    · obtain ⟨ha1, ha2⟩ := h a ha hu
      simp [hu, ha1, ha2]
    · simp [hu]
  simp [calculate_portfolio_metrics, hfil]

theorem activityFlow_congr {a b : CapitalActivity}
    (hty : a.activity_type = b.activity_type) (ham : |a.amount| = |b.amount|) :
    activityFlow a = activityFlow b := by
  simp only [activityFlow, hty, ham]

/-- C10: the cash-flow series for an investment's IRR discards the stored
sign of every CapitalActivity amount — outflow types become `-|amount|`,
inflow types `+|amount|` — and the current value is appended as the final
flow dated today; hence two activity ledgers that differ only in the signs
of their stored amounts produce the same IRR. -/
theorem irr_ignores_stored_sign (newton : ℚ → List ℤ → List ℚ → Option ℚ)
    (today : ℤ) (current_value : ℚ) (acts acts' : List CapitalActivity)
    (hrel : List.Forall₂ (fun a b =>
      a.activity_type = b.activity_type ∧ a.date = b.date ∧
        |a.amount| = |b.amount|) acts acts') :
    calculate_investment_irr newton today current_value acts'
        = calculate_investment_irr newton today current_value acts ∧
    (∀ a : CapitalActivity,
      ((a.activity_type = .INITIAL_INVESTMENT ∨ a.activity_type = .CAPITAL_CALL) →
        activityFlow a = -|a.amount|) ∧
      ((a.activity_type = .DISTRIBUTION ∨ a.activity_type = .PARTIAL_EXIT) →
        activityFlow a = |a.amount|)) ∧
    (acts.map activityFlow ++ [current_value]).getLast? = some current_value ∧
    (acts.map (fun a => a.date) ++ [today]).getLast? = some today := by
  have hflows : acts'.map activityFlow = acts.map activityFlow := by
    induction hrel with
    | nil => rfl
    | cons hab htl ih =>
        simp only [List.map_cons]
        rw [ih, activityFlow_congr hab.1 hab.2.2]
  have hdates : acts'.map (fun a => a.date) = acts.map (fun a => a.date) := by
    clear hflows
    induction hrel with
    | nil => rfl
    | cons hab htl ih =>
        simp only [List.map_cons]
        rw [ih, ← hab.2.1]
  have hlen : acts'.length = acts.length := hrel.length_eq.symm
  refine ⟨?_, ?_, ?_, ?_⟩
  · by_cases hem : acts = []
    · have hem' : acts' = [] := by
        rw [← List.length_eq_zero, hlen, hem]
        rfl
      rw [hem, hem']
    · have hem' : acts' ≠ [] := by
        intro hh
        rw [← List.length_eq_zero, hlen] at hh
        exact hem (List.length_eq_zero.1 hh)
      have he1 : acts.isEmpty = false := by
        simpa [List.isEmpty_iff] using hem
      have he2 : acts'.isEmpty = false := by
        simpa [List.isEmpty_iff] using hem'
      simp only [calculate_investment_irr, he1, he2, hflows, hdates,
        Bool.false_eq_true, if_false]
  · intro a
    constructor
    · intro h
      simp [activityFlow, h]
    · intro h
      have h1 : a.activity_type ≠ .INITIAL_INVESTMENT := by
        rcases h with h | h <;> simp [h]
      have h2 : a.activity_type ≠ .CAPITAL_CALL := by
        rcases h with h | h <;> simp [h]
      simp [activityFlow, h1, h2]
  · simp
  · simp

/-- C1 (amended): for every COMPLETED, not-yet-processed transfer with a
registered recipient distinct from the seller whose amount does not exceed
the seller's current value, one run of the settlement handler marks the
transfer processed, appends exactly one seller CapitalActivity (+amount,
PARTIAL_EXIT for PARTIAL and DISTRIBUTION otherwise) and one buyer
CapitalActivity (−amount, INITIAL_INVESTMENT), applies the seller debit and
the buyer credit exactly once, and every subsequent run — any number of
them, at any dates — is a no-op, so the state after N ≥ 1 runs equals the
state after 1. -/
theorem settlement_idempotent (d1 n1 : Int) (s : LedgerState) (buyer : Nat)
    (seller : Investment)
    (h1 : s.transfer.status = .COMPLETED)
    (h2 : s.transfer.is_processed = false)
    (h3 : s.transfer.to_user = some buyer)
    (h4 : findInvestment s.investments s.transfer.investment = some seller)
    (h5 : ¬ seller.current_value < s.transfer.transfer_amount)
    (hbuyer : buyer ≠ seller.user)
    (hnd : (s.investments.map (fun j => j.id)).Nodup)
    (hfresh : ∀ j ∈ s.investments, j.id < s.nextId) :
    (handle_transfer_completion d1 n1 s).transfer.is_processed = true ∧
    (∀ d2 n2, handle_transfer_completion d2 n2 (handle_transfer_completion d1 n1 s)
        = handle_transfer_completion d1 n1 s) ∧
    (∀ runs : List (Int × Int),
      runs.foldl (fun st p => handle_transfer_completion p.1 p.2 st)
          (handle_transfer_completion d1 n1 s)
        = handle_transfer_completion d1 n1 s) ∧
    (∃ bid, (handle_transfer_completion d1 n1 s).activities =
      s.activities ++
        [{ investment := seller.id
           activity_type := if s.transfer.transfer_type = .PARTIAL
             then .PARTIAL_EXIT else .DISTRIBUTION
           amount := s.transfer.transfer_amount, date := d1 },
         { investment := bid, activity_type := .INITIAL_INVESTMENT
           amount := -s.transfer.transfer_amount, date := d1 }]) ∧
    findInvestment (handle_transfer_completion d1 n1 s).investments seller.id
        = some (sellerAfter s.transfer seller) ∧
    (match buyerLookup s.investments buyer seller.name with
     | some b0 =>
         findInvestment (handle_transfer_completion d1 n1 s).investments b0.id =
           some { b0 with
             total_invested := b0.total_invested + s.transfer.transfer_amount
             current_value := b0.current_value + s.transfer.transfer_amount }
     | none =>
         findInvestment (handle_transfer_completion d1 n1 s).investments s.nextId =
           some { id := s.nextId, user := buyer, name := seller.name
                  status := .ACTIVE, sector := seller.sector
                  total_invested := 0 + s.transfer.transfer_amount
                  current_value := 0 + s.transfer.transfer_amount
                  manager := seller.manager, fund_vintage := seller.fund_vintage
                  investment_date := d1 }) := by
  have hcore := handle_eq_settleCore d1 n1 s h1 h2 h3 h4 h5
  have hsel := (findInvestment_mem h4).1
  obtain ⟨hfS, hfB⟩ :=
    settleCore_invests d1 n1 s s.transfer buyer seller hbuyer hnd hfresh hsel
  have hproc : (handle_transfer_completion d1 n1 s).transfer.is_processed = true := by
    rw [hcore]
    exact settleCore_is_processed d1 n1 s s.transfer buyer seller
  refine ⟨hproc, fun d2 n2 => handle_handle d1 n1 d2 n2 s,
    fun runs => foldl_handle_of_processed runs _ hproc, ?_, ?_, ?_⟩
  · rw [hcore]
    exact settleCore_activities d1 n1 s s.transfer buyer seller
  · rw [hcore]
    exact hfS
  · cases hb : buyerLookup s.investments buyer seller.name with
    | some b0 =>
        rw [hb] at hfB
        dsimp only at hfB ⊢
        rw [hcore]
        exact hfB
    | none =>
        rw [hb] at hfB
        dsimp only at hfB ⊢
        rw [hcore]
        exact hfB

/-- C2 (amended): for every settlement that succeeds with
`transfer_type = PARTIAL` and a post-subtraction seller value of at least
0.01 (so the full-exit override does not fire), the seller investment's
current value decreases by exactly the transfer amount and the buyer
investment's current value (0 for a freshly created buyer position)
increases by exactly the transfer amount. -/
theorem settlement_conservation (d n : Int) (s : LedgerState) (buyer : Nat)
    (seller : Investment)
    (h1 : s.transfer.status = .COMPLETED)
    (h2 : s.transfer.is_processed = false)
    (h3 : s.transfer.to_user = some buyer)
    (h4 : findInvestment s.investments s.transfer.investment = some seller)
    (h5 : ¬ seller.current_value < s.transfer.transfer_amount)
    (htype : s.transfer.transfer_type = .PARTIAL)
    (hnoexit : ¬ seller.current_value - s.transfer.transfer_amount < 1/100)
    (hbuyer : buyer ≠ seller.user)
    (hnd : (s.investments.map (fun j => j.id)).Nodup)
    (hfresh : ∀ j ∈ s.investments, j.id < s.nextId) :
    (∃ seller1,
      findInvestment (handle_transfer_completion d n s).investments seller.id
          = some seller1 ∧
      seller.current_value - seller1.current_value = s.transfer.transfer_amount) ∧
    (match buyerLookup s.investments buyer seller.name with
     | some b0 => ∃ b1,
         findInvestment (handle_transfer_completion d n s).investments b0.id
             = some b1 ∧
         b1.current_value - b0.current_value = s.transfer.transfer_amount
     | none => ∃ b1,
         findInvestment (handle_transfer_completion d n s).investments s.nextId
             = some b1 ∧
         b1.current_value - 0 = s.transfer.transfer_amount) := by
  have hcore := handle_eq_settleCore d n s h1 h2 h3 h4 h5
  have hsel := (findInvestment_mem h4).1
  obtain ⟨hfS, hfB⟩ :=
    settleCore_invests d n s s.transfer buyer seller hbuyer hnd hfresh hsel
  have hcond : ¬ (s.transfer.transfer_type = .FULL ∨
      seller.current_value - s.transfer.transfer_amount < 1/100) := by
    rintro (hF | hlt)
    · rw [htype] at hF
      cases hF
    · exact hnoexit hlt
  have hsa : (sellerAfter s.transfer seller).current_value
      = seller.current_value - s.transfer.transfer_amount := by
    simp only [sellerAfter]
    rw [if_neg hcond]
  constructor
  · refine ⟨sellerAfter s.transfer seller, ?_, ?_⟩
    · rw [hcore]
      exact hfS
    · rw [hsa]
      ring
  · cases hb : buyerLookup s.investments buyer seller.name with
    | some b0 =>
        rw [hb] at hfB
        dsimp only at hfB ⊢
        refine ⟨{ b0 with
            total_invested := b0.total_invested + s.transfer.transfer_amount
            current_value := b0.current_value + s.transfer.transfer_amount }, ?_, ?_⟩
        · rw [hcore]
          exact hfB
        · show b0.current_value + s.transfer.transfer_amount - b0.current_value
              = s.transfer.transfer_amount
          ring
    | none =>
        rw [hb] at hfB
        dsimp only at hfB ⊢
        refine ⟨{ id := s.nextId, user := buyer, name := seller.name
                  status := .ACTIVE, sector := seller.sector
                  total_invested := 0 + s.transfer.transfer_amount
                  current_value := 0 + s.transfer.transfer_amount
                  manager := seller.manager, fund_vintage := seller.fund_vintage
                  investment_date := d }, ?_, ?_⟩
        · rw [hcore]
          exact hfB
        · show (0 : ℚ) + s.transfer.transfer_amount - 0 = s.transfer.transfer_amount
          ring

/-- C3: for every settlement that succeeds with `transfer_type = FULL` —
regardless of the computed transfer ratio — and likewise whenever the
seller's post-subtraction current value falls below 0.01, the seller
investment ends with status EXITED, current value 0 and total invested 0. -/
theorem full_exit_rule (d n : Int) (s : LedgerState) (buyer : Nat)
    (seller : Investment)
    (h1 : s.transfer.status = .COMPLETED)
    (h2 : s.transfer.is_processed = false)
    (h3 : s.transfer.to_user = some buyer)
    (h4 : findInvestment s.investments s.transfer.investment = some seller)
    (h5 : ¬ seller.current_value < s.transfer.transfer_amount)
    (hbuyer : buyer ≠ seller.user)
    (hnd : (s.investments.map (fun j => j.id)).Nodup)
    (hfresh : ∀ j ∈ s.investments, j.id < s.nextId)
    (hexit : s.transfer.transfer_type = .FULL ∨
      seller.current_value - s.transfer.transfer_amount < 1/100) :
    ∃ seller1,
      findInvestment (handle_transfer_completion d n s).investments seller.id
          = some seller1 ∧
      seller1.status = .EXITED ∧ seller1.current_value = 0 ∧
      seller1.total_invested = 0 := by
  have hcore := handle_eq_settleCore d n s h1 h2 h3 h4 h5
  have hsel := (findInvestment_mem h4).1
  obtain ⟨hfS, -⟩ :=
    settleCore_invests d n s s.transfer buyer seller hbuyer hnd hfresh hsel
  have hsx : sellerAfter s.transfer seller
      = { seller with status := .EXITED, current_value := 0, total_invested := 0 } := by
    simp only [sellerAfter]
    rw [if_pos hexit]
  refine ⟨sellerAfter s.transfer seller, ?_, ?_, ?_, ?_⟩
  · rw [hcore]
    exact hfS
  · rw [hsx]
  · rw [hsx]
  · rw [hsx]

theorem saveInvestment_preserves_pred {invs : List Investment} {inv : Investment}
    (P : Investment → Prop)
    (hall : ∀ j ∈ invs, P j) (hinv : P inv) :
    ∀ j ∈ saveInvestment invs inv, P j := by
  intro j hj
  simp only [saveInvestment] at hj
  obtain ⟨k, hk, hgk⟩ := List.mem_map.1 hj
  by_cases hkid : (k.id == inv.id) = true
  · rw [if_pos hkid] at hgk
    rw [← hgk]
    exact hinv
  · rw [if_neg hkid] at hgk
    rw [← hgk]
    exact hall k hk

theorem mem_of_mem_saveInvestment {invs : List Investment} {inv j : Investment}
    (hj : j ∈ saveInvestment invs inv) (hne : j ≠ inv) : j ∈ invs := by
  simp only [saveInvestment] at hj
  obtain ⟨k, hk, hgk⟩ := List.mem_map.1 hj
  by_cases hkid : (k.id == inv.id) = true
  · rw [if_pos hkid] at hgk
    exact absurd hgk.symm hne
  · rw [if_neg hkid] at hgk
    rw [← hgk]
    exact hk

/-- C6 (amended): the settlement executor preserves the
EXITED-implies-zero-balances invariant, provided the recipient does not
already hold an EXITED investment (the transfer-creation rules additionally
guarantee the recipient is not the owner of the transferred investment,
taken as hypothesis here).  Without that proviso the buyer-side
find-or-create — which matches on user and fund name only — credits an
existing EXITED buyer row while leaving its status EXITED, breaking the
invariant. -/
theorem settlement_preserves_exited_zero (d n : Int) (s : LedgerState)
    (hInv : ∀ i ∈ s.investments, i.status = .EXITED →
      i.total_invested = 0 ∧ i.current_value = 0)
    (hA : 0 < s.transfer.transfer_amount)
    (hrecip : ∀ i ∈ s.investments, some i.user = s.transfer.to_user →
      i.status ≠ .EXITED)
    (hself : ∀ i ∈ s.investments, i.id = s.transfer.investment →
      some i.user ≠ s.transfer.to_user) :
    ∀ i ∈ (handle_transfer_completion d n s).investments,
      i.status = .EXITED → i.total_invested = 0 ∧ i.current_value = 0 := by
  by_cases hp : s.transfer.is_processed = true
  · rw [handle_of_processed d n s hp]
    exact hInv
  · have hp' : s.transfer.is_processed = false := by
      simpa using hp
    by_cases hst : s.transfer.status = .COMPLETED
    · cases hu : s.transfer.to_user with
      | none =>
          rw [handle_of_no_buyer d n s hu]
          exact hInv
      | some buyer =>
          cases hf : findInvestment s.investments s.transfer.investment with
          | none =>
              rw [handle_of_no_seller d n s hf]
              exact hInv
          | some seller =>
              by_cases hcv : seller.current_value < s.transfer.transfer_amount
              · rw [handle_of_over_amount d n s hf hcv]
                exact hInv
              · rw [handle_eq_settleCore d n s hst hp' hu hf hcv]
                obtain ⟨hselmem, hselid⟩ := findInvestment_mem hf
                have hbuyer : buyer ≠ seller.user := by
                  have h := hself seller hselmem hselid
                  rw [hu] at h
                  intro he
                  exact h (by rw [he])
                have hseller' : (sellerAfter s.transfer seller).status = .EXITED →
                    (sellerAfter s.transfer seller).total_invested = 0 ∧
                    (sellerAfter s.transfer seller).current_value = 0 := by
                  by_cases hc : s.transfer.transfer_type = .FULL ∨
                      seller.current_value - s.transfer.transfer_amount < 1/100
                  · intro hstat
                    constructor
                    · simp only [sellerAfter]
                      rw [if_pos hc]
                    · simp only [sellerAfter]
                      rw [if_pos hc]
                  · intro hstat
                    exfalso
                    have hs3 : (sellerAfter s.transfer seller).status = seller.status := by
                      simp only [sellerAfter]
                      rw [if_neg hc]
                    rw [hs3] at hstat
                    obtain ⟨-, hcv0⟩ := hInv seller hselmem hstat
                    exact hcv (by rw [hcv0]; exact hA)
                have hInv1 : ∀ i ∈ saveInvestment s.investments (sellerAfter s.transfer seller),
                    i.status = .EXITED → i.total_invested = 0 ∧ i.current_value = 0 :=
                  saveInvestment_preserves_pred _ hInv hseller'
                simp only [settleCore]
                cases hb : buyerLookup
                    (saveInvestment s.investments (sellerAfter s.transfer seller))
                    buyer seller.name with
                | some b0 =>
                    dsimp only
                    obtain ⟨hb0mem1, hb0user, hb0name⟩ := buyerLookup_mem hb
                    have hb0invs : b0 ∈ s.investments := by
                      refine mem_of_mem_saveInvestment hb0mem1 ?_
                      intro he
                      rw [he, sellerAfter_user] at hb0user
                      exact hbuyer hb0user.symm
                    have hb0notex : b0.status ≠ .EXITED :=
                      hrecip b0 hb0invs (by rw [hb0user, hu])
                    exact saveInvestment_preserves_pred _ hInv1
                      (fun hstat => absurd hstat hb0notex)
                | none =>
                    dsimp only
                    intro i hi
                    rcases List.mem_append.1 hi with hi1 | hi2
                    · exact hInv1 i hi1
                    · have hieq := List.mem_singleton.1 hi2
                      rw [hieq]
                      intro hstat
                      exact InvStatus.noConfusion hstat
    · rw [handle_of_not_completed d n s hst]
      exact hInv

/-! ### Counterexamples and witnesses -/

/-- C1 counterexample: `overAmountState` is a COMPLETED transfer with a
registered recipient, yet one run of the handler leaves `is_processed`
false and appends no CapitalActivity rows — so the claim's universally
quantified postcondition (one debit, one credit, `is_processed = true`)
fails without the amount-validity condition. -/
theorem idempotency_postcondition_fails_on_over_amount :
    overAmountState.transfer.status = .COMPLETED ∧
    overAmountState.transfer.to_user = some 20 ∧
    ¬ ((handle_transfer_completion 0 0 overAmountState).transfer.is_processed = true ∧
       (handle_transfer_completion 0 0 overAmountState).activities.length
         = overAmountState.activities.length + 2) := by
  have h := @handle_of_over_amount 0 0 overAmountState smallSeller rfl (by decide)
  rw [h]
  exact ⟨rfl, rfl, fun hc => by simp at hc⟩

/-- C1 witness: on the spec's worked example the settlement runs once,
marks the transfer processed, and a second run at different dates changes
nothing. -/
theorem settlement_idempotent_witness :
    (handle_transfer_completion 0 0 exState).transfer.is_processed = true ∧
    handle_transfer_completion 7 9 (handle_transfer_completion 0 0 exState)
      = handle_transfer_completion 0 0 exState ∧
    [((5 : Int), (5 : Int)), (6, 6)].foldl
        (fun st p => handle_transfer_completion p.1 p.2 st)
        (handle_transfer_completion 0 0 exState)
      = handle_transfer_completion 0 0 exState := by
  obtain ⟨hpr, hrep, hfold, -, -, -⟩ :=
    settlement_idempotent 0 0 exState 20 exSeller rfl rfl rfl rfl
      (by decide) (by decide) (by decide) (by decide)
  exact ⟨hpr, hrep 7 9, hfold [(5, 5), (6, 6)]⟩

/-- C2 counterexample: on `fullBelowValueState` (FULL transfer of 5 000
against a 10 000 position) settlement succeeds, but the seller's current
value drops by 10 000, not by the 5 000 transfer amount — conservation
fails for FULL settlements below the full position value. -/
theorem conservation_fails_on_full_exit :
    fullBelowValueState.transfer.transfer_type = .FULL ∧
    (handle_transfer_completion 0 0 fullBelowValueState).transfer.is_processed = true ∧
    findInvestment (handle_transfer_completion 0 0 fullBelowValueState).investments 1
      = some { smallSeller with
          status := .EXITED, current_value := 0, total_invested := 0 } ∧
    smallSeller.current_value - (0 : ℚ)
      ≠ fullBelowValueState.transfer.transfer_amount := by
  have hcore := handle_eq_settleCore 0 0 fullBelowValueState rfl rfl rfl rfl (by decide)
  have hsel : smallSeller ∈ fullBelowValueState.investments :=
    List.mem_singleton.2 rfl
  obtain ⟨hfS, -⟩ := settleCore_invests 0 0 fullBelowValueState
    fullBelowValueState.transfer 20 smallSeller (by decide) (by decide) (by decide) hsel
  have hsx : sellerAfter fullBelowValueState.transfer smallSeller
      = { smallSeller with status := .EXITED, current_value := 0, total_invested := 0 } := by
    simp only [sellerAfter]
    rw [if_pos (Or.inl
      (show fullBelowValueState.transfer.transfer_type = .FULL from rfl))]
  refine ⟨rfl, ?_, ?_, ?_⟩
  · rw [hcore]
    exact settleCore_is_processed 0 0 fullBelowValueState
      fullBelowValueState.transfer 20 smallSeller
  · rw [hcore]
    rw [hsx] at hfS
    exact hfS
  · show (10000 : ℚ) - 0 ≠ 5000
    norm_num

/-- C2 witness: the spec's worked example — seller 50 000 → 40 000, buyer
created at 10 000; both deltas equal the 10 000 transfer amount. -/
theorem settlement_conservation_witness :
    (∃ seller1,
      findInvestment (handle_transfer_completion 0 0 exState).investments 1
          = some seller1 ∧
      (50000 : ℚ) - seller1.current_value = 10000) ∧
    (∃ b1,
      findInvestment (handle_transfer_completion 0 0 exState).investments 2
          = some b1 ∧
      b1.current_value - 0 = (10000 : ℚ)) := by
  obtain ⟨hs, hb⟩ :=
    settlement_conservation 0 0 exState 20 exSeller rfl rfl rfl rfl
      (by decide) rfl (by norm_num [exSeller, exState]) (by decide) (by decide)
      (by decide)
  refine ⟨hs, ?_⟩
  have hlook : buyerLookup exState.investments 20 exSeller.name = none := rfl
  rw [hlook] at hb
  exact hb

/-- C3 witness: the FULL transfer of `fullBelowValueState` leaves the
seller EXITED with both balances zero. -/
theorem full_exit_rule_witness :
    ∃ seller1,
      findInvestment (handle_transfer_completion 0 0 fullBelowValueState).investments 1
          = some seller1 ∧
      seller1.status = .EXITED ∧ seller1.current_value = 0 ∧
      seller1.total_invested = 0 :=
  full_exit_rule 0 0 fullBelowValueState 20 smallSeller rfl rfl rfl rfl
    (by decide) (by decide) (by decide) (by decide) (Or.inl rfl)

/-- C4 witness: the spec's over-amount example — settlement of a 15 000
transfer against a 10 000 position mutates nothing and leaves the transfer
COMPLETED and unprocessed. -/
theorem over_amount_settlement_no_op_witness :
    handle_transfer_completion 0 0 overAmountState = overAmountState ∧
    (handle_transfer_completion 0 0 overAmountState).transfer.status = .COMPLETED ∧
    (handle_transfer_completion 0 0 overAmountState).transfer.is_processed = false ∧
    (handle_transfer_completion 0 0 overAmountState).activities
      = overAmountState.activities ∧
    (handle_transfer_completion 0 0 overAmountState).investments
      = overAmountState.investments :=
  over_amount_settlement_no_op 0 0 overAmountState smallSeller rfl rfl rfl (by decide)

/-- C5 counterexample: for `transfer_amount = 1.00` the stored fee is
0.025 — not `round(1.00 × 0.025, 2) = 0.02` — so the fee is not rounded to
two decimals as claimed. -/
theorem fee_not_rounded_to_two_decimals :
    (OwnershipTransfer.save 0 unitAmountTransfer).transfer_fee
      ≠ roundHalfEven2 (unitAmountTransfer.transfer_amount * (25/1000)) := by
  have hq : (unitAmountTransfer.transfer_amount * (25/1000)) * 100 = 5/2 := by
    show ((1 : ℚ) * (25/1000)) * 100 = 5/2
    norm_num
  have hfl : ⌊(5/2 : ℚ)⌋ = 2 := by
    norm_num [Int.floor_eq_iff]
  show (1 : ℚ) * (25/1000) ≠ _
  simp only [roundHalfEven2, hq, halfEvenInt, hfl]
  norm_num

/-- C7 witness: completing a PENDING transfer fails with the state error,
completing an APPROVED one succeeds and lands on COMPLETED. -/
theorem complete_guard_witness :
    complete 0 pendingTransfer = .error "Only approved transfers can be completed." ∧
    ∃ t1, complete 0 approvedTransfer = .ok t1 ∧ t1.status = .COMPLETED :=
  ⟨(complete_guard 0 pendingTransfer).2 (by decide),
   (complete_guard 0 approvedTransfer).1.mpr rfl⟩

/-- C8 witness: the sentinel cases of `xirr` at concrete inputs — length
mismatch, a single point, and a non-convergent solver all yield `none`. -/
theorem xirr_sentinel_witness :
    xirr (fun _ _ _ => none) [0] [1, 2] = none ∧
    xirr (fun _ _ _ => none) [0] [1] = none ∧
    xirr (fun _ _ _ => none) [0, 365] [-1000, 1100] = none := by
  refine ⟨(xirr_sentinel (fun _ _ _ => none) [0] [1, 2]).2.1 (by decide),
    (xirr_sentinel (fun _ _ _ => none) [0] [1]).2.2.1 (by decide), ?_⟩
  rw [(xirr_sentinel (fun _ _ _ => none) [0, 365] [-1000, 1100]).2.2.2 rfl (by decide)]

/-- C9 witness: user 7 holds only an EXITED investment, so the metrics come
back as the all-zero struct. -/
theorem portfolio_metrics_empty_witness :
    calculate_portfolio_metrics (fun _ => 0) 7 [exitedOnlyInv] =
      .ok { total_value := 0, total_invested := 0, unrealized_gains := 0
            unrealized_gains_percentage := 0, average_irr := 0
            num_investments := 0 } :=
  portfolio_metrics_empty (fun _ => 0) 7 [exitedOnlyInv] (by decide)

/-- C10 witness: an INITIAL_INVESTMENT stored as +5 and as −5 give the same
IRR. -/
theorem irr_ignores_stored_sign_witness :
    calculate_investment_irr (fun _ _ _ => some (1/2)) 365 100 [negInitialActivity]
      = calculate_investment_irr (fun _ _ _ => some (1/2)) 365 100 [posInitialActivity] :=
  (irr_ignores_stored_sign (fun _ _ _ => some (1/2)) 365 100
    [posInitialActivity] [negInitialActivity]
    (List.Forall₂.cons ⟨rfl, rfl, by decide⟩ List.Forall₂.nil)).1

/-- C6 counterexample: the EXITED-implies-zero invariant holds before
settlement of `exitedBuyerState`, but the buyer-side find-or-create matches
user 20's EXITED position and credits it without reactivation, leaving an
EXITED investment with current value 1 000. -/
theorem exited_invariant_fails_on_buyer_side :
    (∀ i ∈ exitedBuyerState.investments,
      i.status = .EXITED → i.total_invested = 0 ∧ i.current_value = 0) ∧
    (∃ i ∈ (handle_transfer_completion 0 0 exitedBuyerState).investments,
      i.status = .EXITED ∧ i.current_value ≠ 0) := by
  have hcore := handle_eq_settleCore 0 0 exitedBuyerState rfl rfl rfl rfl (by decide)
  have hsel : smallSeller ∈ exitedBuyerState.investments :=
    List.mem_cons_self _ _
  obtain ⟨-, hfB⟩ := settleCore_invests 0 0 exitedBuyerState
    exitedBuyerState.transfer 20 smallSeller (by decide) (by decide) (by decide) hsel
  have hlook : buyerLookup exitedBuyerState.investments 20 smallSeller.name
      = some exitedBuyerInv := rfl
  rw [hlook] at hfB
  dsimp only at hfB
  refine ⟨by decide, ?_⟩
  refine ⟨{ exitedBuyerInv with
      total_invested :=
        exitedBuyerInv.total_invested + exitedBuyerState.transfer.transfer_amount
      current_value :=
        exitedBuyerInv.current_value + exitedBuyerState.transfer.transfer_amount },
    ?_, rfl, ?_⟩
  · rw [hcore]
    exact (findInvestment_mem hfB).1
  · show (0 : ℚ) + 1000 ≠ 0
    norm_num

/-- C6 witness: settling the FULL transfer of `fullBelowValueState` (where
the recipient holds no EXITED position) produces an EXITED seller row, and
the preserved invariant forces both of its balances to zero. -/
theorem settlement_preserves_exited_zero_witness :
    (sellerAfter fullBelowValueState.transfer smallSeller).total_invested = 0 ∧
    (sellerAfter fullBelowValueState.transfer smallSeller).current_value = 0 := by
  have hcore := handle_eq_settleCore 0 0 fullBelowValueState rfl rfl rfl rfl (by decide)
  obtain ⟨hfS, -⟩ := settleCore_invests 0 0 fullBelowValueState
    fullBelowValueState.transfer 20 smallSeller (by decide) (by decide) (by decide)
    (List.mem_singleton.2 rfl)
  have hmem : sellerAfter fullBelowValueState.transfer smallSeller
      ∈ (handle_transfer_completion 0 0 fullBelowValueState).investments := by
    rw [hcore]
    exact (findInvestment_mem hfS).1
  refine settlement_preserves_exited_zero 0 0 fullBelowValueState (by decide)
    (by decide) (by decide) (by decide) _ hmem ?_
  simp only [sellerAfter]
  rw [if_pos (Or.inl
    (show fullBelowValueState.transfer.transfer_type = .FULL from rfl))]

end FmiBackend
